import Mathlib

/-!
Shallow embedding of the merit-order dispatch engine in `src/main.py`
(class `ProductionPlanCalculator` and its pydantic input model), together
with proofs of the specified properties.

Modelling conventions:
* Python numbers (int/float) are modelled as exact rationals `ℚ`; integer
  typed fields of the pydantic model are `ℤ`.
* Python `round(x, 1)` is modelled as round-half-to-even at one decimal
  place (`round1` below), Python's documented rounding mode.
* The pydantic `Powerplant` model re-declares `pmax` as `Optional[int] =
  None` (line 24 shadows line 22), so `pmax` is an optional field; after
  the engine's in-place update it can hold a fractional value, hence
  `Option ℚ`.
* Exceptions are modelled with `Except`: besides the two declared
  exceptions, `zeroDivision` models Python's ZeroDivisionError (division
  by a zero efficiency), `typeError` models TypeError (arithmetic or
  comparison against a `None` pmax), and `unboundLocal` models
  UnboundLocalError (`calculate_pmax` falls through all branches on an
  unknown plant type and returns an unassigned local).
* `get_sorted_powerplants_with_pmax_and_cost` copies only the list
  container (`plants = list(self.powerplants)`) and mutates the same
  `Powerplant` objects in place; the caller-visible post-call state of
  `self.powerplants` is modelled by `update_plants_state`, and
  `get_production_plan` returns it as a second component.
-/

/-- Failure outcomes of the engine: the two declared exceptions of
`src/main.py` plus the Python runtime errors reachable in the code. -/
inductive Err where
  | invalidPlantType
  | manualIntervention
  | zeroDivision
  | typeError
  | unboundLocal
deriving DecidableEq

/-- The `Fuels` pydantic model (src/main.py lines 10-14). -/
structure Fuels where
  gas : ℚ
  kerosine : ℚ
  co2 : ℤ
  wind : ℤ
deriving DecidableEq

/-- The `Powerplant` pydantic model (src/main.py lines 17-24); `pmax` is
`Optional` because line 24 re-declares it with default `None`, and `ℚ`
valued because the engine overwrites it with a possibly fractional
effective capacity. -/
structure Powerplant where
  name : String
  type : String
  efficiency : ℚ
  pmin : ℤ
  pmax : Option ℚ
  cost_per_MWH : Option ℚ
deriving DecidableEq

/-- The `InputData` pydantic model (src/main.py lines 27-30). -/
structure InputData where
  load : ℤ
  fuels : Fuels
  powerplants : List Powerplant
deriving DecidableEq

/-- The `ResultItem` pydantic model (src/main.py lines 33-35). -/
structure ResultItem where
  name : String
  p : ℚ
deriving DecidableEq

/-- Round a rational to the nearest integer, ties to even (Python's
`round` with no digits, restricted to exact inputs). -/
def rhe (x : ℚ) : ℤ :=
  if x - ⌊x⌋ < 1/2 then ⌊x⌋
  else if 1/2 < x - ⌊x⌋ then ⌊x⌋ + 1
  else if ⌊x⌋ % 2 = 0 then ⌊x⌋ else ⌊x⌋ + 1

/-- Python `round(x, 1)`: round to one decimal place, ties to even. -/
def round1 (x : ℚ) : ℚ := (rhe (10 * x) : ℚ) / 10

/-- `ProductionPlanCalculator.calculate_cost_per_MWH` (src/main.py lines
52-62): marginal cost by plant type; a zero efficiency makes the Python
division raise ZeroDivisionError. -/
def calculate_cost_per_MWH (fuels : Fuels) (p : Powerplant) : Except Err ℚ :=
  if p.type = "gasfired" then
    if p.efficiency = 0 then .error .zeroDivision
    else .ok (fuels.gas / p.efficiency)
  else if p.type = "turbojet" then
    if p.efficiency = 0 then .error .zeroDivision
    else .ok (fuels.kerosine / p.efficiency)
  else if p.type = "windturbine" then .ok 0
  else .error .invalidPlantType

/-- `ProductionPlanCalculator.calculate_pmax` (src/main.py lines 64-69):
effective capacity by plant type.  A wind plant with `pmax = None` makes
`None * wind` raise TypeError; a plant of unknown type matches no branch
and the trailing `return pmax` raises UnboundLocalError. -/
def calculate_pmax (fuels : Fuels) (p : Powerplant) : Except Err (Option ℚ) :=
  if p.type = "windturbine" then
    match p.pmax with
    | none => .error .typeError
    | some m => .ok (some (m * (fuels.wind : ℚ) / 100))
  else if p.type = "gasfired" ∨ p.type = "turbojet" then .ok p.pmax
  else .error .unboundLocal

/-- The in-place update loop of
`get_sorted_powerplants_with_pmax_and_cost` (src/main.py lines 73-75):
each plant's `cost_per_MWH` is set to its marginal cost and its `pmax`
overwritten by its effective capacity.  Value semantics: the resulting
plant list (original order) on success, the first error otherwise. -/
def update_plants (fuels : Fuels) : List Powerplant → Except Err (List Powerplant)
  | [] => .ok []
  | p :: ps =>
    match calculate_cost_per_MWH fuels p with
    | .error e => .error e
    | .ok c =>
      match calculate_pmax fuels { p with cost_per_MWH := some c } with
      | .error e => .error e
      | .ok m =>
        match update_plants fuels ps with
        | .error e => .error e
        | .ok rest => .ok ({ p with cost_per_MWH := some c, pmax := m } :: rest)

/-- Caller-visible state of `self.powerplants` after the update loop of
src/main.py lines 73-75: the loop mutates the caller's objects in place,
so a raise part-way leaves the already-processed prefix updated. -/
def update_plants_state (fuels : Fuels) : List Powerplant → List Powerplant
  | [] => []
  | p :: ps =>
    match calculate_cost_per_MWH fuels p with
    | .error _ => p :: ps
    | .ok c =>
      match calculate_pmax fuels { p with cost_per_MWH := some c } with
      | .error _ => { p with cost_per_MWH := some c } :: ps
      | .ok m => { p with cost_per_MWH := some c, pmax := m } :: update_plants_state fuels ps

/-- Sort key of src/main.py line 77 (`lambda x: x.cost_per_MWH`); after
the update loop the field is always populated. -/
def costKey (p : Powerplant) : ℚ := p.cost_per_MWH.getD 0

/-- Boolean comparison used to model Python's stable ascending `sorted`. -/
def costLE (a b : Powerplant) : Bool := decide (costKey a ≤ costKey b)

/-- `ProductionPlanCalculator.get_sorted_powerplants_with_pmax_and_cost`
(src/main.py lines 71-77): update every plant in place, then return a new
list sorted ascending by marginal cost (Python's `sorted` is stable;
modelled by `List.mergeSort`). -/
def get_sorted_powerplants_with_pmax_and_cost (fuels : Fuels)
    (plants : List Powerplant) : Except Err (List Powerplant) :=
  match update_plants fuels plants with
  | .error e => .error e
  | .ok ps => .ok (ps.mergeSort costLE)

/-- The allocation loop of `get_production_plan` (src/main.py lines
81-97) over the sorted plant list, carrying the running remaining load.
When the remaining load is positive the `remaining_load < plant.pmin`
check runs first (int comparison, always defined), then the comparisons
against `plant.pmax` raise TypeError when that field is `None`. -/
def production_loop (remaining : ℚ) : List Powerplant → Except Err (List ResultItem)
  | [] => .ok []
  | plant :: rest =>
    if 0 < remaining then
      if remaining < (plant.pmin : ℚ) then .error .manualIntervention
      else
        match plant.pmax with
        | none => .error .typeError
        | some m =>
          let power := if m ≤ remaining then round1 m else round1 remaining
          match production_loop (remaining - power) rest with
          | .error e => .error e
          | .ok tail => .ok (⟨plant.name, power⟩ :: tail)
    else
      match production_loop remaining rest with
      | .error e => .error e
      | .ok tail => .ok (⟨plant.name, (0 : ℚ)⟩ :: tail)

/-- `ProductionPlanCalculator.get_production_plan` (src/main.py lines
79-97).  First component: the returned plan or the raised exception.
Second component: the caller-visible `self.powerplants` after the call
(the update loop mutated the caller's objects in place). -/
def get_production_plan (input : InputData) : Except Err (List ResultItem) × List Powerplant :=
  match update_plants input.fuels input.powerplants with
  | .error e => (.error e, update_plants_state input.fuels input.powerplants)
  | .ok ps => (production_loop (input.load : ℚ) (ps.mergeSort costLE),
               update_plants_state input.fuels input.powerplants)

/-- Total assigned output of a plan. -/
def planSum (plan : List ResultItem) : ℚ := (plan.map ResultItem.p).sum

/-- Running remaining load just before the `i`-th unit of a plan is
processed: the initial load minus the outputs already assigned. -/
def remainingAt (load : ℚ) (plan : List ResultItem) (i : Nat) : ℚ :=
  load - planSum (plan.take i)

/-- A rational is an exact multiple of one tenth, i.e. representable at
one decimal place. -/
def isDecimal (x : ℚ) : Prop := ∃ k : ℤ, x = (k : ℚ)/10

/-! ### Concrete payloads used to instantiate the theorems -/

/-- A fuel snapshot: gas 10, kerosine 20, co2 0, wind 60%. -/
def demoFuels : Fuels := ⟨10, 20, 0, 60⟩

/-- Wind plant, nameplate 200. -/
def windA : Powerplant := ⟨"windA", "windturbine", 1, 0, some 200, none⟩

/-- Gas plant, efficiency 0.5, bounds 100-400; marginal cost 20. -/
def gasA : Powerplant := ⟨"gasA", "gasfired", 1/2, 100, some 400, none⟩

/-- Gas plant, efficiency 0.4, bounds 50-200; marginal cost 25. -/
def gasB : Powerplant := ⟨"gasB", "gasfired", 2/5, 50, some 200, none⟩

/-- A three-plant request with load 480. -/
def demoInput : InputData := ⟨480, demoFuels, [windA, gasA, gasB]⟩

/-- `windA` after the in-place update: capacity scaled to 120, cost 0. -/
def windA1 : Powerplant := ⟨"windA", "windturbine", 1, 0, some 120, some 0⟩

/-- `gasA` after the in-place update. -/
def gasA1 : Powerplant := ⟨"gasA", "gasfired", 1/2, 100, some 400, some 20⟩

/-- `gasB` after the in-place update. -/
def gasB1 : Powerplant := ⟨"gasB", "gasfired", 2/5, 50, some 200, some 25⟩

/-- The plan the engine returns for `demoInput`. -/
def demoPlan : List ResultItem := [⟨"windA", 120⟩, ⟨"gasA", 360⟩, ⟨"gasB", 0⟩]

/-- Request whose load exceeds the only plant's capacity. -/
def overInput : InputData := ⟨1000, demoFuels, [gasA]⟩

/-- Fuel snapshot with 54% wind availability. -/
def fuels54 : Fuels := ⟨10, 20, 0, 54⟩

/-- Wind plant with nameplate 7; at 54% wind its effective capacity is
3.78, which rounds up to 3.8. -/
def windSmall : Powerplant := ⟨"w54", "windturbine", 1, 0, some 7, none⟩

/-- Request that makes the engine assign 3.8 against capacity 3.78. -/
def capInput : InputData := ⟨100, fuels54, [windSmall]⟩

/-- A plant with the unsupported kind tag of the spec's scenario 3. -/
def solarPlant : Powerplant := ⟨"solar", "solarfired", 1/2, 10, some 50, none⟩

/-- Request containing the unsupported plant kind. -/
def solarInput : InputData := ⟨100, demoFuels, [gasA, solarPlant]⟩

/-- Gas plant with efficiency 0: the cost derivation divides by it. -/
def zeroEffPlant : Powerplant := ⟨"zeff", "gasfired", 0, 0, some 10, none⟩

/-- Request admitted by the input model but outside the validation
contract (zero efficiency). -/
def zeroEffInput : InputData := ⟨5, demoFuels, [zeroEffPlant]⟩

/-- The second call on the same calculator starts from the mutated
plants: this is that state as an `InputData`. -/
def demoInputSecond : InputData := ⟨480, demoFuels, [windA1, gasA1, gasB1]⟩

/-- `windA1` after a second in-place update: the 60% scaling compounds,
120 becomes 72. -/
def windA2 : Powerplant := ⟨"windA", "windturbine", 1, 0, some 72, some 0⟩

/-- `windSmall` after the in-place update: capacity 7 × 54% = 3.78. -/
def windSmall1 : Powerplant := ⟨"w54", "windturbine", 1, 0, some (189/50), some 0⟩

/-! ### Basic facts about the rounding function -/

theorem rhe_eq_of_near (x : ℚ) (k : ℤ) (h1 : (k : ℚ) - 1/2 < x) (h2 : x < (k : ℚ) + 1/2) :
    rhe x = k := by
  rcases le_or_lt (k : ℚ) x with hk | hk
  · have hf : ⌊x⌋ = k := Int.floor_eq_iff.mpr ⟨hk, by linarith⟩
    unfold rhe
    rw [hf]
    split_ifs with h
    · rfl
    all_goals exact absurd (by linarith : x - (k : ℚ) < 1/2) h
  · have hf : ⌊x⌋ = k - 1 := by
      apply Int.floor_eq_iff.mpr
      constructor
      · push_cast
        linarith
      · push_cast
        linarith
    unfold rhe
    rw [hf]
    split_ifs with h h'
    · exfalso; push_cast at h; linarith
    · omega
    · exfalso; push_cast at h'; linarith
    · omega

theorem rhe_close (x : ℚ) : x - 1/2 ≤ (rhe x : ℚ) ∧ (rhe x : ℚ) ≤ x + 1/2 := by
  have h1 : (⌊x⌋ : ℚ) ≤ x := Int.floor_le x
  have h2 : x < ⌊x⌋ + 1 := Int.lt_floor_add_one x
  unfold rhe
  split_ifs <;> constructor <;> push_cast <;> linarith

theorem rhe_intCast (k : ℤ) : rhe (k : ℚ) = k := by
  apply rhe_eq_of_near <;> norm_num

theorem rhe_nonneg (x : ℚ) (hx : 0 ≤ x) : 0 ≤ rhe x := by
  have h : 0 ≤ ⌊x⌋ := Int.floor_nonneg.mpr hx
  unfold rhe
  split_ifs <;> omega

theorem round1_close (x : ℚ) : x - 1/20 ≤ round1 x ∧ round1 x ≤ x + 1/20 := by
  obtain ⟨h1, h2⟩ := rhe_close (10 * x)
  unfold round1
  constructor <;> linarith

theorem round1_decimal_fix (k : ℤ) : round1 ((k : ℚ)/10) = (k : ℚ)/10 := by
  unfold round1
  have h : (10 : ℚ) * ((k : ℚ)/10) = (k : ℚ) := by ring
  rw [h, rhe_intCast]

theorem round1_nonneg (x : ℚ) (hx : 0 ≤ x) : 0 ≤ round1 x := by
  have h := rhe_nonneg (10 * x) (by linarith)
  have h2 : (0 : ℚ) ≤ (rhe (10 * x) : ℚ) := by exact_mod_cast h
  unfold round1
  linarith

theorem round1_is_decimal (x : ℚ) : ∃ k : ℤ, round1 x = (k : ℚ)/10 :=
  ⟨rhe (10 * x), rfl⟩

theorem round1_eval (x : ℚ) (k : ℤ) (h1 : (k : ℚ) - 1/2 < 10 * x) (h2 : 10 * x < (k : ℚ) + 1/2) :
    round1 x = (k : ℚ) / 10 := by
  unfold round1
  rw [rhe_eq_of_near (10 * x) k h1 h2]

theorem isDecimal_round1 (x : ℚ) : isDecimal (round1 x) := round1_is_decimal x

theorem isDecimal_zero : isDecimal 0 := ⟨0, by norm_num⟩

theorem isDecimal_intCast (k : ℤ) : isDecimal (k : ℚ) := ⟨10 * k, by push_cast; ring⟩

theorem isDecimal_sub {x y : ℚ} (hx : isDecimal x) (hy : isDecimal y) : isDecimal (x - y) := by
  obtain ⟨a, ha⟩ := hx
  obtain ⟨b, hb⟩ := hy
  exact ⟨a - b, by rw [ha, hb]; push_cast; ring⟩

theorem round1_fix {x : ℚ} (hx : isDecimal x) : round1 x = x := by
  obtain ⟨k, hk⟩ := hx
  rw [hk, round1_decimal_fix]

/-! ### Inversion and evaluation lemmas for the allocation loop -/

theorem production_loop_cons_ok (r : ℚ) (plant : Powerplant) (rest : List Powerplant)
    (plan : List ResultItem) (h : production_loop r (plant :: rest) = .ok plan) :
    (0 < r ∧ ¬ (r < (plant.pmin : ℚ)) ∧ ∃ m, plant.pmax = some m ∧
      ∃ tail, production_loop (r - (if m ≤ r then round1 m else round1 r)) rest = .ok tail ∧
        plan = ⟨plant.name, if m ≤ r then round1 m else round1 r⟩ :: tail) ∨
    (¬ 0 < r ∧ ∃ tail, production_loop r rest = .ok tail ∧ plan = ⟨plant.name, 0⟩ :: tail) := by
  rw [production_loop] at h
  by_cases hr : 0 < r
  · left
    rw [if_pos hr] at h
    by_cases hmin : r < (plant.pmin : ℚ)
    · rw [if_pos hmin] at h
      exact absurd h (by simp)
    · rw [if_neg hmin] at h
      refine ⟨hr, hmin, ?_⟩
      cases hpm : plant.pmax with
      | none => rw [hpm] at h; exact absurd h (by simp)
      | some m =>
        rw [hpm] at h
        simp only at h
        refine ⟨m, rfl, ?_⟩
        cases htail : production_loop (r - (if m ≤ r then round1 m else round1 r)) rest with
        | error e => rw [htail] at h; exact absurd h (by simp)
        | ok tail =>
          rw [htail] at h
          simp only [Except.ok.injEq] at h
          exact ⟨tail, rfl, h.symm⟩
  · right
    rw [if_neg hr] at h
    refine ⟨hr, ?_⟩
    cases htail : production_loop r rest with
    | error e => rw [htail] at h; exact absurd h (by simp)
    | ok tail =>
      rw [htail] at h
      simp only [Except.ok.injEq] at h
      exact ⟨tail, rfl, h.symm⟩

theorem production_loop_nonpos (r : ℚ) (hr : ¬ 0 < r) :
    ∀ l : List Powerplant, production_loop r l = .ok (l.map fun p => ⟨p.name, 0⟩)
  | [] => rfl
  | plant :: rest => by
    rw [production_loop, if_neg hr, production_loop_nonpos r hr rest]
    rfl

theorem production_loop_names (r : ℚ) (plants : List Powerplant) (plan : List ResultItem)
    (h : production_loop r plants = .ok plan) :
    plan.map ResultItem.name = plants.map Powerplant.name := by
  induction plants generalizing r plan with
  | nil =>
    rw [production_loop] at h
    simp only [Except.ok.injEq] at h
    simp [← h]
  | cons plant rest ih =>
    rcases production_loop_cons_ok r plant rest plan h with
      ⟨_, _, m, _, tail, htail, hplan⟩ | ⟨_, tail, htail, hplan⟩ <;>
      simp [hplan, ih _ _ htail]

theorem production_loop_abort (r : ℚ) (plant : Powerplant) (rest : List Powerplant)
    (hr : 0 < r) (hmin : r < (plant.pmin : ℚ)) :
    production_loop r (plant :: rest) = .error .manualIntervention := by
  rw [production_loop, if_pos hr, if_pos hmin]

theorem remainingAt_start (load : ℚ) (plan : List ResultItem) : remainingAt load plan 0 = load := by
  simp [remainingAt, planSum]

theorem remainingAt_cons (load : ℚ) (item : ResultItem) (plan : List ResultItem) (i : Nat) :
    remainingAt load (item :: plan) (i + 1) = remainingAt (load - item.p) plan i := by
  simp only [remainingAt, planSum, List.take_succ_cons, List.map_cons, List.sum_cons]
  ring

theorem planSum_cons (item : ResultItem) (plan : List ResultItem) :
    planSum (item :: plan) = item.p + planSum plan := by
  simp [planSum]

/-- Master invariant of the allocation loop on success: the plan has one
entry per plant with the same name, and each entry is decided by the
four-way case analysis on the running remaining load. -/
theorem production_loop_invariant (plants : List Powerplant) : ∀ (r : ℚ) (plan : List ResultItem),
    production_loop r plants = .ok plan →
    plan.length = plants.length ∧
    ∀ i (hp : i < plan.length) (hq : i < plants.length),
      (plan.get ⟨i, hp⟩).name = (plants.get ⟨i, hq⟩).name ∧
      (remainingAt r plan i ≤ 0 → (plan.get ⟨i, hp⟩).p = 0) ∧
      (0 < remainingAt r plan i →
        ((plants.get ⟨i, hq⟩).pmin : ℚ) ≤ remainingAt r plan i ∧
        ∃ m, (plants.get ⟨i, hq⟩).pmax = some m ∧
          (m ≤ remainingAt r plan i → (plan.get ⟨i, hp⟩).p = round1 m) ∧
          (remainingAt r plan i < m → (plan.get ⟨i, hp⟩).p = round1 (remainingAt r plan i))) := by
  induction plants with
  | nil =>
    intro r plan h
    rw [production_loop] at h
    simp only [Except.ok.injEq] at h
    subst h
    exact ⟨rfl, fun i hp hq => absurd hq (Nat.not_lt_zero i)⟩
  | cons plant rest ih =>
    intro r plan h
    rcases production_loop_cons_ok r plant rest plan h with
      ⟨hr, hmin, m, hpm, tail, htail, hplan⟩ | ⟨hr, tail, htail, hplan⟩
    · subst hplan
      obtain ⟨hlen, hspec⟩ := ih _ _ htail
      refine ⟨by simpa using hlen, ?_⟩
      intro i hp hq
      match i with
      | 0 =>
        rw [remainingAt_start]
        refine ⟨rfl, fun hle => absurd hr (not_lt.mpr hle), fun _ => ⟨not_lt.mp hmin, m, hpm, ?_, ?_⟩⟩
        · intro hle
          simp only [List.get]
          rw [if_pos hle]
        · intro hlt
          simp only [List.get]
          rw [if_neg (not_le.mpr hlt)]
      | i + 1 =>
        rw [remainingAt_cons]
        exact hspec i (by simpa using hp) (by simpa using hq)
    · subst hplan
      obtain ⟨hlen, hspec⟩ := ih _ _ htail
      refine ⟨by simpa using hlen, ?_⟩
      intro i hp hq
      match i with
      | 0 =>
        rw [remainingAt_start]
        exact ⟨rfl, fun _ => rfl, fun hpos => absurd hpos hr⟩
      | i + 1 =>
        rw [remainingAt_cons]
        have hz : r - (⟨plant.name, (0 : ℚ)⟩ : ResultItem).p = r := by simp
        rw [hz]
        exact hspec i (by simpa using hp) (by simpa using hq)

/-- On success the total assigned output never overshoots the initial
remaining load by more than half of the rounding grain. -/
theorem production_loop_sum_lb (plants : List Powerplant) : ∀ (r : ℚ) (plan : List ResultItem),
    production_loop r plants = .ok plan → -(1/20) ≤ r → -(1/20) ≤ r - planSum plan := by
  induction plants with
  | nil =>
    intro r plan h hr
    rw [production_loop] at h
    simp only [Except.ok.injEq] at h
    subst h
    simpa [planSum] using hr
  | cons plant rest ih =>
    intro r plan h hr
    rcases production_loop_cons_ok r plant rest plan h with
      ⟨hr0, hmin, m, hpm, tail, htail, hplan⟩ | ⟨hr0, tail, htail, hplan⟩
    · subst hplan
      rw [planSum_cons]
      have hpw : (if m ≤ r then round1 m else round1 r) ≤ r + 1/20 := by
        split_ifs with hle
        · have := (round1_close m).2
          linarith
        · have := (round1_close r).2
          linarith
      have hrec := ih (r - (if m ≤ r then round1 m else round1 r)) tail htail (by linarith)
      simp only
      linarith
    · subst hplan
      rw [planSum_cons]
      have hrec := ih r tail htail hr
      simp only
      linarith

/-- On success every assigned output is non-negative and exceeds the
plant's (already derived) capacity by at most half the rounding grain,
provided the derived capacities are non-negative. -/
theorem production_loop_bounds (plants : List Powerplant) : ∀ (r : ℚ) (plan : List ResultItem),
    production_loop r plants = .ok plan →
    (∀ p ∈ plants, ∀ m, p.pmax = some m → 0 ≤ m) →
    ∀ i (hp : i < plan.length) (hq : i < plants.length),
      0 ≤ (plan.get ⟨i, hp⟩).p ∧
      ∀ m, (plants.get ⟨i, hq⟩).pmax = some m → (plan.get ⟨i, hp⟩).p ≤ m + 1/20 := by
  induction plants with
  | nil =>
    intro r plan h hcap i hp hq
    exact absurd hq (Nat.not_lt_zero i)
  | cons plant rest ih =>
    intro r plan h hcap i hp hq
    rcases production_loop_cons_ok r plant rest plan h with
      ⟨hr0, hmin, m, hpm, tail, htail, hplan⟩ | ⟨hr0, tail, htail, hplan⟩
    · subst hplan
      match i with
      | 0 =>
        have hm0 : 0 ≤ m := hcap plant (List.mem_cons_self plant rest) m hpm
        constructor
        · simp only [List.get]
          split_ifs with hle
          · exact round1_nonneg m hm0
          · exact round1_nonneg r (le_of_lt hr0)
        · intro m' hm'
          simp only [List.get] at hm'
          rw [hpm] at hm'
          injection hm' with hmm
          subst hmm
          simp only [List.get]
          split_ifs with hle
          · have h2 := (round1_close m).2
            linarith
          · have h2 := (round1_close r).2
            have h3 : r < m := not_le.mp hle
            linarith
      | i + 1 =>
        exact ih _ _ htail (fun p hpmem => hcap p (List.mem_cons_of_mem plant hpmem))
          i (by simpa using hp) (by simpa using hq)
    · subst hplan
      match i with
      | 0 =>
        refine ⟨le_refl (0 : ℚ), ?_⟩
        intro m hm
        have hm0 : 0 ≤ m := hcap plant (List.mem_cons_self plant rest) m hm
        simp only [List.get]
        linarith
      | i + 1 =>
        exact ih _ _ htail (fun p hpmem => hcap p (List.mem_cons_of_mem plant hpmem))
          i (by simpa using hp) (by simpa using hq)

/-- In any successful run started from a one-decimal remaining load,
every running remaining load stays on the one-decimal grid. -/
theorem production_loop_remaining_decimal (plants : List Powerplant) :
    ∀ (r : ℚ) (plan : List ResultItem),
    production_loop r plants = .ok plan → isDecimal r →
    ∀ i, isDecimal (remainingAt r plan i) := by
  induction plants with
  | nil =>
    intro r plan h hd i
    rw [production_loop] at h
    simp only [Except.ok.injEq] at h
    subst h
    simpa [remainingAt, planSum] using hd
  | cons plant rest ih =>
    intro r plan h hd i
    rcases production_loop_cons_ok r plant rest plan h with
      ⟨hr0, hmin, m, hpm, tail, htail, hplan⟩ | ⟨hr0, tail, htail, hplan⟩
    · subst hplan
      match i with
      | 0 => rw [remainingAt_start]; exact hd
      | i + 1 =>
        rw [remainingAt_cons]
        exact ih _ _ htail (isDecimal_sub hd (by split_ifs <;> exact isDecimal_round1 _)) i
    · subst hplan
      match i with
      | 0 => rw [remainingAt_start]; exact hd
      | i + 1 =>
        rw [remainingAt_cons]
        have hz : r - (⟨plant.name, (0 : ℚ)⟩ : ResultItem).p = r := by simp
        rw [hz]
        exact ih _ _ htail hd i

/-- When the remaining load lies strictly between the head plant's
minimum and its derived capacity and sits on the one-decimal grid, the
head absorbs exactly the remaining load and every later plant gets 0. -/
theorem production_loop_exact_fill (r : ℚ) (plant : Powerplant) (rest : List Powerplant)
    (m : ℚ) (hm : plant.pmax = some m) (h0 : 0 ≤ plant.pmin)
    (hlo : (plant.pmin : ℚ) < r) (hhi : r < m) (hd : isDecimal r) :
    production_loop r (plant :: rest) =
      .ok (⟨plant.name, round1 r⟩ :: rest.map fun q => ⟨q.name, 0⟩) ∧ round1 r = r := by
  have hpos : (0 : ℚ) < r := by
    have hc : (0 : ℚ) ≤ (plant.pmin : ℚ) := by exact_mod_cast h0
    linarith
  have hfix : round1 r = r := round1_fix hd
  refine ⟨?_, hfix⟩
  rw [production_loop, if_pos hpos, if_neg (not_lt.mpr (le_of_lt hlo)), hm]
  simp only
  rw [if_neg (not_le.mpr hhi)]
  have hz : r - round1 r = 0 := by rw [hfix]; ring
  rw [hz, production_loop_nonpos 0 (by norm_num) rest]

/-- When every plant carries a derived capacity, the allocation loop
either returns a plan or raises the infeasibility exception. -/
theorem production_loop_total (plants : List Powerplant) : ∀ (r : ℚ),
    (∀ p ∈ plants, p.pmax ≠ none) →
    (∃ plan, production_loop r plants = .ok plan) ∨
    production_loop r plants = .error .manualIntervention := by
  induction plants with
  | nil => exact fun r _ => Or.inl ⟨[], rfl⟩
  | cons plant rest ih =>
    intro r hpm
    by_cases hr : 0 < r
    · by_cases hmin : r < (plant.pmin : ℚ)
      · exact Or.inr (production_loop_abort r plant rest hr hmin)
      · cases hpmx : plant.pmax with
        | none => exact absurd hpmx (hpm plant (List.mem_cons_self plant rest))
        | some m =>
          rcases ih (r - (if m ≤ r then round1 m else round1 r))
              (fun p hp => hpm p (List.mem_cons_of_mem plant hp)) with ⟨tail, htail⟩ | herr
          · refine Or.inl ⟨⟨plant.name, if m ≤ r then round1 m else round1 r⟩ :: tail, ?_⟩
            rw [production_loop, if_pos hr, if_neg hmin, hpmx]
            simp only
            rw [htail]
          · refine Or.inr ?_
            rw [production_loop, if_pos hr, if_neg hmin, hpmx]
            simp only
            rw [herr]
    · exact Or.inl ⟨_, production_loop_nonpos r hr (plant :: rest)⟩

/-! ### Inversion and preservation lemmas for the in-place update -/

theorem update_plants_cons_ok (fuels : Fuels) (p : Powerplant) (ps out : List Powerplant)
    (h : update_plants fuels (p :: ps) = .ok out) :
    ∃ c m rest, calculate_cost_per_MWH fuels p = .ok c ∧
      calculate_pmax fuels { p with cost_per_MWH := some c } = .ok m ∧
      update_plants fuels ps = .ok rest ∧
      out = { p with cost_per_MWH := some c, pmax := m } :: rest := by
  rw [update_plants] at h
  cases hc : calculate_cost_per_MWH fuels p with
  | error e => rw [hc] at h; exact absurd h (by simp)
  | ok c =>
    rw [hc] at h
    simp only [] at h
    cases hm : calculate_pmax fuels { p with cost_per_MWH := some c } with
    | error e => rw [hm] at h; exact absurd h (by simp)
    | ok m =>
      rw [hm] at h
      simp only [] at h
      cases hrest : update_plants fuels ps with
      | error e => rw [hrest] at h; exact absurd h (by simp)
      | ok rest =>
        rw [hrest] at h
        simp only [Except.ok.injEq] at h
        exact ⟨c, m, rest, rfl, hm, rfl, h.symm⟩

theorem calculate_cost_ok_inv (fuels : Fuels) (p : Powerplant) (c : ℚ)
    (h : calculate_cost_per_MWH fuels p = .ok c) :
    (p.type = "gasfired" ∧ p.efficiency ≠ 0 ∧ c = fuels.gas / p.efficiency) ∨
    (p.type = "turbojet" ∧ p.efficiency ≠ 0 ∧ c = fuels.kerosine / p.efficiency) ∨
    (p.type = "windturbine" ∧ c = 0) := by
  unfold calculate_cost_per_MWH at h
  split_ifs at h with h1 h2 h3 h4 h5 <;> simp only [Except.ok.injEq] at h
  · exact Or.inl ⟨h1, h2, h.symm⟩
  · exact Or.inr (Or.inl ⟨h3, h4, h.symm⟩)
  · exact Or.inr (Or.inr ⟨h5, h.symm⟩)

theorem calculate_pmax_ok_inv (fuels : Fuels) (p : Powerplant) (m : Option ℚ)
    (h : calculate_pmax fuels p = .ok m) :
    (p.type = "windturbine" ∧ ∃ m0, p.pmax = some m0 ∧ m = some (m0 * (fuels.wind : ℚ) / 100)) ∨
    ((p.type = "gasfired" ∨ p.type = "turbojet") ∧ m = p.pmax) := by
  unfold calculate_pmax at h
  split_ifs at h with h1 h2
  · cases hp : p.pmax with
    | none => rw [hp] at h; exact absurd h (by simp)
    | some m0 =>
      rw [hp] at h
      simp only [Except.ok.injEq] at h
      exact Or.inl ⟨h1, m0, rfl, h.symm⟩
  · simp only [Except.ok.injEq] at h
    exact Or.inr ⟨h2, h.symm⟩

theorem update_plants_names (fuels : Fuels) (plants ps : List Powerplant)
    (h : update_plants fuels plants = .ok ps) :
    ps.map Powerplant.name = plants.map Powerplant.name := by
  induction plants generalizing ps with
  | nil =>
    rw [update_plants] at h
    simp only [Except.ok.injEq] at h
    simp [← h]
  | cons p rest ih =>
    obtain ⟨c, m, tail, hc, hm, htail, hout⟩ := update_plants_cons_ok fuels p rest ps h
    subst hout
    simp [ih _ htail]

theorem update_plants_state_eq (fuels : Fuels) (plants ps : List Powerplant)
    (h : update_plants fuels plants = .ok ps) :
    update_plants_state fuels plants = ps := by
  induction plants generalizing ps with
  | nil =>
    rw [update_plants] at h
    simp only [Except.ok.injEq] at h
    rw [update_plants_state, h]
  | cons p rest ih =>
    obtain ⟨c, m, tail, hc, hm, htail, hout⟩ := update_plants_cons_ok fuels p rest ps h
    subst hout
    rw [update_plants_state, hc]
    simp only []
    rw [hm]
    simp only []
    rw [ih _ htail]

theorem update_plants_pmax_nonneg (fuels : Fuels) (hwind : 0 ≤ fuels.wind) :
    ∀ (plants ps : List Powerplant), update_plants fuels plants = .ok ps →
    (∀ p ∈ plants, ∀ m, p.pmax = some m → 0 ≤ m) →
    ∀ q ∈ ps, ∀ m, q.pmax = some m → 0 ≤ m := by
  intro plants
  induction plants with
  | nil =>
    intro ps h hcap
    rw [update_plants] at h
    simp only [Except.ok.injEq] at h
    subst h
    intro q hq
    exact absurd hq (List.not_mem_nil q)
  | cons p rest ih =>
    intro ps h hcap
    obtain ⟨c, m, tail, hc, hm, htail, hout⟩ := update_plants_cons_ok fuels p rest ps h
    subst hout
    intro q hq m' hm'
    rcases List.mem_cons.mp hq with hq | hq
    · subst hq
      simp only at hm'
      rcases calculate_pmax_ok_inv fuels _ m hm with ⟨_, m0, hm0, hmv⟩ | ⟨_, hmv⟩
      · rw [hmv] at hm'
        injection hm' with he
        have h0 : (0 : ℚ) ≤ m0 := hcap p (List.mem_cons_self p rest) m0 (by simpa using hm0)
        have hw : (0 : ℚ) ≤ (fuels.wind : ℚ) := by exact_mod_cast hwind
        rw [← he]
        positivity
      · rw [hmv] at hm'
        exact hcap p (List.mem_cons_self p rest) m' (by simpa using hm')
    · exact ih tail htail (fun x hx => hcap x (List.mem_cons_of_mem p hx)) q hq m' hm'

theorem calculate_cost_unknown (fuels : Fuels) (p : Powerplant)
    (h1 : p.type ≠ "gasfired") (h2 : p.type ≠ "turbojet") (h3 : p.type ≠ "windturbine") :
    calculate_cost_per_MWH fuels p = .error .invalidPlantType := by
  unfold calculate_cost_per_MWH
  rw [if_neg h1, if_neg h2, if_neg h3]

theorem calculate_pmax_unknown (fuels : Fuels) (p : Powerplant)
    (h1 : p.type ≠ "gasfired") (h2 : p.type ≠ "turbojet") (h3 : p.type ≠ "windturbine") :
    calculate_pmax fuels p = .error .unboundLocal := by
  unfold calculate_pmax
  rw [if_neg h3, if_neg (by simp [h1, h2] : ¬ (p.type = "gasfired" ∨ p.type = "turbojet"))]

theorem calculate_cost_ok_of_valid (fuels : Fuels) (p : Powerplant)
    (ht : p.type = "gasfired" ∨ p.type = "turbojet" ∨ p.type = "windturbine")
    (heff : p.type = "gasfired" ∨ p.type = "turbojet" → p.efficiency ≠ 0) :
    ∃ c, calculate_cost_per_MWH fuels p = .ok c := by
  unfold calculate_cost_per_MWH
  rcases ht with ht | ht | ht
  · rw [if_pos ht, if_neg (heff (Or.inl ht))]
    exact ⟨_, rfl⟩
  · by_cases hg : p.type = "gasfired"
    · rw [if_pos hg, if_neg (heff (Or.inl hg))]
      exact ⟨_, rfl⟩
    · rw [if_neg hg, if_pos ht, if_neg (heff (Or.inr ht))]
      exact ⟨_, rfl⟩
  · by_cases hg : p.type = "gasfired"
    · exact absurd (hg ▸ ht) (by simp)
    · by_cases htj : p.type = "turbojet"
      · exact absurd (htj ▸ ht) (by simp)
      · rw [if_neg hg, if_neg htj, if_pos ht]
        exact ⟨0, rfl⟩

theorem calculate_pmax_ok_of_valid (fuels : Fuels) (p : Powerplant)
    (ht : p.type = "gasfired" ∨ p.type = "turbojet" ∨ p.type = "windturbine")
    (hw : p.type = "windturbine" → p.pmax ≠ none) :
    ∃ m, calculate_pmax fuels p = .ok m ∧ (m = none → p.pmax = none) := by
  unfold calculate_pmax
  by_cases hwt : p.type = "windturbine"
  · rw [if_pos hwt]
    cases hp : p.pmax with
    | none => exact absurd hp (hw hwt)
    | some m0 => exact ⟨some (m0 * (fuels.wind : ℚ) / 100), rfl, by simp⟩
  · have hgt : p.type = "gasfired" ∨ p.type = "turbojet" := by
      rcases ht with ht | ht | ht
      · exact Or.inl ht
      · exact Or.inr ht
      · exact absurd ht hwt
    rw [if_neg hwt, if_pos hgt]
    exact ⟨p.pmax, rfl, fun h => h⟩

/-- A plant of unknown kind anywhere in the list makes the update pass
fail with the invalid-kind error, provided the plants before it do not
crash for an unrelated reason. -/
theorem update_plants_invalid (fuels : Fuels) : ∀ (plants : List Powerplant),
    (∀ p ∈ plants,
      (p.type = "gasfired" ∨ p.type = "turbojet" → p.efficiency ≠ 0) ∧
      (p.type = "windturbine" → p.pmax ≠ none)) →
    (∃ p ∈ plants, p.type ≠ "gasfired" ∧ p.type ≠ "turbojet" ∧ p.type ≠ "windturbine") →
    update_plants fuels plants = .error .invalidPlantType := by
  intro plants
  induction plants with
  | nil =>
    intro _ hbad
    obtain ⟨p, hp, _⟩ := hbad
    exact absurd hp (List.not_mem_nil p)
  | cons p rest ih =>
    intro hvalid hbad
    by_cases hpb : p.type ≠ "gasfired" ∧ p.type ≠ "turbojet" ∧ p.type ≠ "windturbine"
    · rw [update_plants, calculate_cost_unknown fuels p hpb.1 hpb.2.1 hpb.2.2]
    · have ht : p.type = "gasfired" ∨ p.type = "turbojet" ∨ p.type = "windturbine" := by
        by_contra hc
        push_neg at hc
        exact hpb ⟨hc.1, hc.2.1, hc.2.2⟩
      obtain ⟨c, hc⟩ := calculate_cost_ok_of_valid fuels p ht
        (hvalid p (List.mem_cons_self p rest)).1
      have ht' : Powerplant.type { p with cost_per_MWH := some c } = "gasfired" ∨
          Powerplant.type { p with cost_per_MWH := some c } = "turbojet" ∨
          Powerplant.type { p with cost_per_MWH := some c } = "windturbine" := ht
      obtain ⟨m, hm, _⟩ := calculate_pmax_ok_of_valid fuels { p with cost_per_MWH := some c } ht'
        (fun hh => (hvalid p (List.mem_cons_self p rest)).2 hh)
      have hbad' : ∃ q ∈ rest, q.type ≠ "gasfired" ∧ q.type ≠ "turbojet" ∧
          q.type ≠ "windturbine" := by
        obtain ⟨q, hq, hqb⟩ := hbad
        rcases List.mem_cons.mp hq with hq | hq
        · exact absurd (hq ▸ hqb) hpb
        · exact ⟨q, hq, hqb⟩
      rw [update_plants, hc]
      simp only []
      rw [hm]
      simp only []
      rw [ih (fun x hx => hvalid x (List.mem_cons_of_mem p hx)) hbad']

/-- Under the validation contract (known kinds may appear or not, every
fuel-burning plant has a nonzero efficiency, every plant has a pmax), the
update pass either succeeds with all derived capacities present, or
fails with the invalid-kind error. -/
theorem update_plants_total (fuels : Fuels) : ∀ (plants : List Powerplant),
    (∀ p ∈ plants, p.type = "gasfired" ∨ p.type = "turbojet" → p.efficiency ≠ 0) →
    (∀ p ∈ plants, p.pmax ≠ none) →
    (∃ ps, update_plants fuels plants = .ok ps ∧ ∀ q ∈ ps, q.pmax ≠ none) ∨
    update_plants fuels plants = .error .invalidPlantType := by
  intro plants
  induction plants with
  | nil =>
    intro _ _
    refine Or.inl ⟨[], rfl, ?_⟩
    intro q hq
    exact absurd hq (List.not_mem_nil q)
  | cons p rest ih =>
    intro heff hpm
    by_cases ht : p.type = "gasfired" ∨ p.type = "turbojet" ∨ p.type = "windturbine"
    · obtain ⟨c, hc⟩ := calculate_cost_ok_of_valid fuels p ht
        (heff p (List.mem_cons_self p rest))
      obtain ⟨m, hm, hmn⟩ := calculate_pmax_ok_of_valid fuels { p with cost_per_MWH := some c }
        ht (fun _ => hpm p (List.mem_cons_self p rest))
      rcases ih (fun x hx => heff x (List.mem_cons_of_mem p hx))
          (fun x hx => hpm x (List.mem_cons_of_mem p hx)) with ⟨tail, htail, htn⟩ | herr
      · refine Or.inl ⟨{ p with cost_per_MWH := some c, pmax := m } :: tail, ?_, ?_⟩
        · rw [update_plants, hc]
          simp only []
          rw [hm]
          simp only []
          rw [htail]
        · intro q hq
          rcases List.mem_cons.mp hq with hq | hq
          · subst hq
            simp only
            intro hmn'
            exact hpm p (List.mem_cons_self p rest) (hmn hmn')
          · exact htn q hq
      · refine Or.inr ?_
        rw [update_plants, hc]
        simp only []
        rw [hm]
        simp only []
        rw [herr]
    · push_neg at ht
      refine Or.inr ?_
      rw [update_plants, calculate_cost_unknown fuels p ht.1 ht.2.1 ht.2.2]

/-! ### Pipeline and sorting lemmas -/

theorem get_production_plan_of_ok (input : InputData) (ps : List Powerplant)
    (h : update_plants input.fuels input.powerplants = .ok ps) :
    get_production_plan input =
      (production_loop (input.load : ℚ) (ps.mergeSort costLE), ps) := by
  unfold get_production_plan
  rw [h, update_plants_state_eq input.fuels input.powerplants ps h]

theorem get_production_plan_of_error (input : InputData) (e : Err)
    (h : update_plants input.fuels input.powerplants = .error e) :
    (get_production_plan input).1 = .error e := by
  unfold get_production_plan
  rw [h]

theorem get_production_plan_ok_inv (input : InputData) (plan : List ResultItem)
    (h : (get_production_plan input).1 = .ok plan) :
    ∃ ps, update_plants input.fuels input.powerplants = .ok ps ∧
      production_loop (input.load : ℚ) (ps.mergeSort costLE) = .ok plan := by
  unfold get_production_plan at h
  cases hu : update_plants input.fuels input.powerplants with
  | error e => rw [hu] at h; exact absurd h (by simp)
  | ok ps =>
    rw [hu] at h
    exact ⟨ps, rfl, h⟩

theorem costLE_trans : ∀ (a b c : Powerplant), costLE a b → costLE b c → costLE a c := by
  intro a b c hab hbc
  simp only [costLE, decide_eq_true_eq] at hab hbc ⊢
  exact le_trans hab hbc

theorem costLE_total : ∀ (a b : Powerplant), costLE a b || costLE b a := by
  intro a b
  simp only [costLE]
  rcases le_total (costKey a) (costKey b) with h | h <;> simp [h]

theorem mergeSort_cost_pairwise (l : List Powerplant) :
    (l.mergeSort costLE).Pairwise (fun a b => costKey a ≤ costKey b) := by
  have h := List.sorted_mergeSort costLE_trans costLE_total l
  exact h.imp (fun hab => by simpa [costLE] using hab)

theorem mergeSort_filter_costKey (l : List Powerplant) (c : ℚ) :
    (l.mergeSort costLE).filter (fun p => decide (costKey p = c)) =
      l.filter (fun p => decide (costKey p = c)) := by
  have hpair : (l.filter (fun p => decide (costKey p = c))).Pairwise
      (fun a b => costLE a b = true) := by
    apply List.pairwise_of_forall_mem_list
    intro a ha b hb
    have ha' := List.of_mem_filter ha
    have hb' := List.of_mem_filter hb
    simp only [decide_eq_true_eq] at ha' hb'
    simp [costLE, ha', hb']
  have hsub : List.Sublist (l.filter (fun p => decide (costKey p = c))) (l.mergeSort costLE) :=
    List.sublist_mergeSort costLE_trans costLE_total hpair (List.filter_sublist l)
  have hsub2 : List.Sublist (l.filter (fun p => decide (costKey p = c)))
      ((l.mergeSort costLE).filter (fun p => decide (costKey p = c))) := by
    have hff := hsub.filter (fun p => decide (costKey p = c))
    rwa [List.filter_filter,
      (by funext a; rw [Bool.and_self] :
        (fun a => decide (costKey a = c) && decide (costKey a = c)) =
          fun a => decide (costKey a = c))] at hff
  have hperm : List.Perm ((l.mergeSort costLE).filter (fun p => decide (costKey p = c)))
      (l.filter (fun p => decide (costKey p = c))) :=
    (List.mergeSort_perm l costLE).filter (fun p => decide (costKey p = c))
  exact (hsub2.eq_of_length hperm.length_eq.symm).symm

/-! ### Concrete evaluations of the engine -/

theorem eval_update_demo :
    update_plants demoFuels [windA, gasA, gasB] = .ok [windA1, gasA1, gasB1] := by
  norm_num +decide [update_plants, calculate_cost_per_MWH, calculate_pmax,
    windA, gasA, gasB, windA1, gasA1, gasB1, demoFuels]

theorem eval_sort_demo : [windA1, gasA1, gasB1].mergeSort costLE = [windA1, gasA1, gasB1] := by
  apply List.mergeSort_of_sorted
  norm_num [List.pairwise_cons, costLE, costKey, windA1, gasA1, gasB1]

theorem eval_loop_demo : production_loop 480 [windA1, gasA1, gasB1] = .ok demoPlan := by
  norm_num +decide [production_loop, windA1, gasA1, gasB1, demoPlan,
    round1_eval (120 : ℚ) 1200 (by norm_num) (by norm_num),
    round1_eval (360 : ℚ) 3600 (by norm_num) (by norm_num)]

theorem eval_run_demo : get_production_plan demoInput = (.ok demoPlan, [windA1, gasA1, gasB1]) := by
  have h := get_production_plan_of_ok demoInput [windA1, gasA1, gasB1] eval_update_demo
  rw [h]
  rw [show demoInput.load = (480 : ℤ) from rfl, eval_sort_demo]
  norm_num [eval_loop_demo]

theorem eval_update_second :
    update_plants demoFuels [windA1, gasA1, gasB1] = .ok [windA2, gasA1, gasB1] := by
  norm_num +decide [update_plants, calculate_cost_per_MWH, calculate_pmax,
    windA1, gasA1, gasB1, windA2, demoFuels]

theorem eval_sort_second : [windA2, gasA1, gasB1].mergeSort costLE = [windA2, gasA1, gasB1] := by
  apply List.mergeSort_of_sorted
  norm_num [List.pairwise_cons, costLE, costKey, windA2, gasA1, gasB1]

theorem eval_loop_second :
    production_loop 480 [windA2, gasA1, gasB1] = .error .manualIntervention := by
  norm_num +decide [production_loop, windA2, gasA1, gasB1,
    round1_eval (72 : ℚ) 720 (by norm_num) (by norm_num),
    round1_eval (400 : ℚ) 4000 (by norm_num) (by norm_num)]

theorem eval_run_second :
    (get_production_plan demoInputSecond).1 = .error .manualIntervention := by
  have h := get_production_plan_of_ok demoInputSecond [windA2, gasA1, gasB1] eval_update_second
  rw [h]
  rw [show demoInputSecond.load = (480 : ℤ) from rfl, eval_sort_second]
  norm_num [eval_loop_second]

theorem eval_update_over : update_plants demoFuels [gasA] = .ok [gasA1] := by
  norm_num +decide [update_plants, calculate_cost_per_MWH, calculate_pmax,
    gasA, gasA1, demoFuels]

theorem eval_loop_over : production_loop 1000 [gasA1] = .ok [⟨"gasA", 400⟩] := by
  norm_num +decide [production_loop, gasA1,
    round1_eval (400 : ℚ) 4000 (by norm_num) (by norm_num)]

theorem eval_run_over : (get_production_plan overInput).1 = .ok [⟨"gasA", 400⟩] := by
  have h := get_production_plan_of_ok overInput [gasA1] eval_update_over
  rw [h]
  rw [show overInput.load = (1000 : ℤ) from rfl,
    show [gasA1].mergeSort costLE = [gasA1] from List.mergeSort_singleton gasA1]
  norm_num [eval_loop_over]

theorem eval_update_cap : update_plants fuels54 [windSmall] = .ok [windSmall1] := by
  norm_num +decide [update_plants, calculate_cost_per_MWH, calculate_pmax,
    windSmall, windSmall1, fuels54]

theorem eval_loop_cap : production_loop 100 [windSmall1] = .ok [⟨"w54", 19/5⟩] := by
  norm_num +decide [production_loop, windSmall1,
    round1_eval (189/50 : ℚ) 38 (by norm_num) (by norm_num)]

theorem eval_run_cap : (get_production_plan capInput).1 = .ok [⟨"w54", 19/5⟩] := by
  have h := get_production_plan_of_ok capInput [windSmall1] eval_update_cap
  rw [h]
  rw [show capInput.load = (100 : ℤ) from rfl,
    show [windSmall1].mergeSort costLE = [windSmall1] from List.mergeSort_singleton windSmall1]
  norm_num [eval_loop_cap]

theorem eval_run_zeroEff : (get_production_plan zeroEffInput).1 = .error .zeroDivision := by
  apply get_production_plan_of_error
  norm_num +decide [update_plants, calculate_cost_per_MWH, zeroEffPlant, demoFuels]

theorem eval_pmax_solar : calculate_pmax demoFuels solarPlant = .error .unboundLocal := by
  norm_num +decide [calculate_pmax, solarPlant]

/-! ### Claim theorems -/

/-- C1: in a validated request the allocation loop processes the ranked
units with a running remaining load initialised to the requested load;
on success each unit with non-positive remaining load is listed at 0,
each unit reached with a positive remaining load satisfies pmin ≤
remaining (otherwise the whole computation aborts with
ManualInterventionNeeded, second conjunct), is assigned its full derived
capacity rounded to one decimal place when remaining ≥ capacity, and
exactly the remaining load rounded to one decimal place otherwise; the
assignment is subtracted from the running load (`remainingAt`). -/
theorem greedy_allocation_case_analysis :
    (∀ (r : ℚ) (plants : List Powerplant) (plan : List ResultItem),
      production_loop r plants = .ok plan →
      plan.length = plants.length ∧
      ∀ i (hp : i < plan.length) (hq : i < plants.length),
        (plan.get ⟨i, hp⟩).name = (plants.get ⟨i, hq⟩).name ∧
        (remainingAt r plan i ≤ 0 → (plan.get ⟨i, hp⟩).p = 0) ∧
        (0 < remainingAt r plan i →
          ((plants.get ⟨i, hq⟩).pmin : ℚ) ≤ remainingAt r plan i ∧
          ∃ m, (plants.get ⟨i, hq⟩).pmax = some m ∧
            (m ≤ remainingAt r plan i → (plan.get ⟨i, hp⟩).p = round1 m) ∧
            (remainingAt r plan i < m →
              (plan.get ⟨i, hp⟩).p = round1 (remainingAt r plan i)))) ∧
    (∀ (r : ℚ) (plant : Powerplant) (rest : List Powerplant),
      0 < r → r < (plant.pmin : ℚ) →
      production_loop r (plant :: rest) = .error .manualIntervention) :=
  ⟨fun r plants plan h => production_loop_invariant plants r plan h,
   production_loop_abort⟩

theorem greedy_allocation_case_analysis_witness :
    demoPlan.length = [windA1, gasA1, gasB1].length ∧
    production_loop 90 [gasA1] = .error .manualIntervention :=
  ⟨(greedy_allocation_case_analysis.1 480 [windA1, gasA1, gasB1] demoPlan eval_loop_demo).1,
   greedy_allocation_case_analysis.2 90 gasA1 [] (by norm_num) (by norm_num [gasA1])⟩

/-- C2: the derived marginal cost is gas price over efficiency for
"gasfired", kerosine price over efficiency for "turbojet" and exactly 0
for "windturbine"; the derived effective capacity is nameplate × wind%
/ 100 for wind (kept exact, unrounded) and the unchanged nameplate for
the two fuel-burning kinds. -/
theorem derived_cost_and_capacity (fuels : Fuels) (p : Powerplant) :
    (p.type = "gasfired" → p.efficiency ≠ 0 →
      calculate_cost_per_MWH fuels p = .ok (fuels.gas / p.efficiency)) ∧
    (p.type = "turbojet" → p.efficiency ≠ 0 →
      calculate_cost_per_MWH fuels p = .ok (fuels.kerosine / p.efficiency)) ∧
    (p.type = "windturbine" → calculate_cost_per_MWH fuels p = .ok 0) ∧
    (∀ m0, p.type = "windturbine" → p.pmax = some m0 →
      calculate_pmax fuels p = .ok (some (m0 * (fuels.wind : ℚ) / 100))) ∧
    ((p.type = "gasfired" ∨ p.type = "turbojet") → calculate_pmax fuels p = .ok p.pmax) := by
  refine ⟨?_, ?_, ?_, ?_, ?_⟩
  · intro ht he
    unfold calculate_cost_per_MWH
    rw [if_pos ht, if_neg he]
  · intro ht he
    unfold calculate_cost_per_MWH
    rw [if_neg (by rw [ht]; decide), if_pos ht, if_neg he]
  · intro ht
    unfold calculate_cost_per_MWH
    rw [if_neg (by rw [ht]; decide), if_neg (by rw [ht]; decide), if_pos ht]
  · intro m0 ht hm
    unfold calculate_pmax
    rw [if_pos ht, hm]
  · intro ht
    unfold calculate_pmax
    rw [if_neg (by rcases ht with h | h <;> rw [h] <;> decide), if_pos ht]

theorem derived_cost_and_capacity_witness :
    calculate_cost_per_MWH demoFuels gasA = .ok 20 ∧
    calculate_pmax demoFuels windA = .ok (some 120) := by
  constructor
  · have h := (derived_cost_and_capacity demoFuels gasA).1 rfl (by norm_num [gasA])
    rw [h]
    norm_num [gasA, demoFuels]
  · have h := (derived_cost_and_capacity demoFuels windA).2.2.2.1 200 rfl rfl
    rw [h]
    norm_num [windA, demoFuels]

/-- C9: when the remaining load falls strictly between a unit's minimum
and its derived capacity (and, as in every run started from an integer
load, lies on the one-decimal grid — second conjunct), the unit is
assigned exactly the remaining load, whose one-decimal rounding is the
identity; the running load becomes exactly 0, never a positive residue,
and every subsequent unit is assigned 0. -/
theorem exact_fill_spec :
    (∀ (r : ℚ) (plant : Powerplant) (rest : List Powerplant) (m : ℚ),
      plant.pmax = some m → 0 ≤ plant.pmin → (plant.pmin : ℚ) < r → r < m → isDecimal r →
      production_loop r (plant :: rest) =
        .ok (⟨plant.name, round1 r⟩ :: rest.map fun q => ⟨q.name, 0⟩) ∧ round1 r = r) ∧
    (∀ (load : ℤ) (plants : List Powerplant) (plan : List ResultItem),
      production_loop (load : ℚ) plants = .ok plan →
      ∀ i, isDecimal (remainingAt (load : ℚ) plan i)) :=
  ⟨fun r plant rest m hm h0 hlo hhi hd =>
    production_loop_exact_fill r plant rest m hm h0 hlo hhi hd,
   fun load plants plan h i =>
    production_loop_remaining_decimal plants _ plan h (isDecimal_intCast load) i⟩

theorem exact_fill_spec_witness :
    production_loop 360 [gasA1, gasB1] = .ok [⟨"gasA", (360 : ℚ)⟩, ⟨"gasB", 0⟩] := by
  have h := exact_fill_spec.1 360 gasA1 [gasB1] 400 (by norm_num [gasA1])
    (by norm_num [gasA1]) (by norm_num [gasA1]) (by norm_num) ⟨3600, by norm_num⟩
  rw [h.1, h.2]
  norm_num [gasA1, gasB1]

/-- C4 counterexample: `overInput` (load 1000, one 400-capacity plant)
is "feasible" in the claim's sense — the engine returns a plan — yet the
plan's total misses the load by 600, far beyond the 0.1 tolerance. -/
theorem conservation_counterexample :
    (get_production_plan overInput).1 = .ok [⟨"gasA", 400⟩] ∧
    ¬ |planSum [(⟨"gasA", 400⟩ : ResultItem)] - (overInput.load : ℚ)| ≤ 1/10 := by
  refine ⟨eval_run_over, ?_⟩
  norm_num [planSum, overInput]

/-- C4 amended: for a non-negative requested load, whenever the engine
returns a plan whose total covers the load (which fails to happen when
the ranked capacity is insufficient: the code then still returns a plan
summing to less than the load), the total equals the load to within 0.1. -/
theorem conservation_of_load (input : InputData) (plan : List ResultItem)
    (h : (get_production_plan input).1 = .ok plan)
    (hload : 0 ≤ input.load) (hcover : (input.load : ℚ) ≤ planSum plan) :
    |planSum plan - (input.load : ℚ)| ≤ 1/10 := by
  obtain ⟨ps, hu, hl⟩ := get_production_plan_ok_inv input plan h
  have hr0 : -(1/20 : ℚ) ≤ (input.load : ℚ) := by
    have hc : (0 : ℚ) ≤ (input.load : ℚ) := by exact_mod_cast hload
    linarith
  have hlb := production_loop_sum_lb _ _ _ hl hr0
  rw [abs_le]
  constructor <;> linarith

theorem conservation_of_load_witness : |planSum demoPlan - ((480 : ℤ) : ℚ)| ≤ 1/10 := by
  have h := conservation_of_load demoInput demoPlan (by rw [eval_run_demo])
    (by norm_num [demoInput]) (by norm_num [planSum, demoPlan, demoInput])
  exact h

/-- C5 counterexample: for `capInput` the wind unit's effective maximum
is 3.78 but the engine assigns 3.8: rounding the capacity to one decimal
place overshoots the effective maximum, refuting the claimed bound
(`capInput` satisfies the claim's validated-input precondition: both
bounds of the unit are non-negative). -/
theorem capacity_bound_counterexample :
    (get_production_plan capInput).1 = .ok [⟨"w54", 19/5⟩] ∧
    update_plants capInput.fuels capInput.powerplants = .ok [windSmall1] ∧
    windSmall1.pmax = some (189/50) ∧ ¬ ((19 : ℚ)/5 ≤ 189/50) := by
  refine ⟨eval_run_cap, eval_update_cap, rfl, by norm_num⟩

/-- C5 amended: every assigned output is non-negative and at most the
unit's effective maximum plus 0.05 — the one-decimal rounding of the
capacity can exceed the effective maximum by at most half a grain, as
the counterexample shows. -/
theorem capacity_bounds_spec (input : InputData) (ps : List Powerplant) (plan : List ResultItem)
    (h1 : update_plants input.fuels input.powerplants = .ok ps)
    (h2 : production_loop (input.load : ℚ) (ps.mergeSort costLE) = .ok plan)
    (hwind : 0 ≤ input.fuels.wind)
    (hcap : ∀ p ∈ input.powerplants, ∀ m, p.pmax = some m → 0 ≤ m) :
    ∀ i (hp : i < plan.length) (hq : i < (ps.mergeSort costLE).length),
      0 ≤ (plan.get ⟨i, hp⟩).p ∧
      ∀ m, ((ps.mergeSort costLE).get ⟨i, hq⟩).pmax = some m →
        (plan.get ⟨i, hp⟩).p ≤ m + 1/20 := by
  have hps := update_plants_pmax_nonneg input.fuels hwind input.powerplants ps h1 hcap
  have hsorted : ∀ p ∈ ps.mergeSort costLE, ∀ m, p.pmax = some m → 0 ≤ m := by
    intro p hp
    exact hps p (List.mem_mergeSort.mp hp)
  exact production_loop_bounds _ _ _ h2 hsorted

theorem capacity_bounds_spec_witness : (0 : ℚ) ≤ 120 ∧ (120 : ℚ) ≤ 120 + 1/20 := by
  have h := capacity_bounds_spec demoInput [windA1, gasA1, gasB1] demoPlan
    eval_update_demo
    (by rw [show ((demoInput.load : ℤ) : ℚ) = (480 : ℚ) by norm_num [demoInput],
          eval_sort_demo]
        exact eval_loop_demo)
    (by norm_num [demoInput, demoFuels])
    (by intro p hp m hm
        simp only [demoInput] at hp
        rcases List.mem_cons.mp hp with rfl | hp
        · simp [windA] at hm
          rw [← hm]
          norm_num
        · rcases List.mem_cons.mp hp with rfl | hp
          · simp [gasA] at hm
            rw [← hm]
            norm_num
          · rcases List.mem_cons.mp hp with rfl | hp
            · simp [gasB] at hm
              rw [← hm]
              norm_num
            · exact absurd hp (List.not_mem_nil p))
  rw [eval_sort_demo] at h
  have h0 := h 0 (by norm_num [demoPlan]) (by norm_num)
  exact ⟨h0.1, h0.2 120 rfl⟩

/-- C6: on success the plan has exactly one entry per input unit, in the
ranked order (same name sequence as the sorted list, which is a
permutation of the updated input list, whose name sequence matches the
caller's unit list); the order is ascending by derived marginal cost and
the sort is stable: for every cost value, the equal-cost units appear in
their relative input order. -/
theorem ranked_completeness_and_stability (input : InputData) (ps : List Powerplant)
    (plan : List ResultItem)
    (h1 : update_plants input.fuels input.powerplants = .ok ps)
    (h2 : production_loop (input.load : ℚ) (ps.mergeSort costLE) = .ok plan) :
    plan.map ResultItem.name = (ps.mergeSort costLE).map Powerplant.name ∧
    List.Perm (ps.mergeSort costLE) ps ∧
    ps.map Powerplant.name = input.powerplants.map Powerplant.name ∧
    (ps.mergeSort costLE).Pairwise (fun a b => costKey a ≤ costKey b) ∧
    ∀ c : ℚ, (ps.mergeSort costLE).filter (fun p => decide (costKey p = c)) =
      ps.filter (fun p => decide (costKey p = c)) :=
  ⟨production_loop_names _ _ _ h2, List.mergeSort_perm ps costLE,
   update_plants_names _ _ _ h1, mergeSort_cost_pairwise ps,
   fun c => mergeSort_filter_costKey ps c⟩

theorem ranked_completeness_and_stability_witness :
    demoPlan.map ResultItem.name = ["windA", "gasA", "gasB"] := by
  have h := ranked_completeness_and_stability demoInput [windA1, gasA1, gasB1] demoPlan
    eval_update_demo
    (by rw [show ((demoInput.load : ℤ) : ℚ) = (480 : ℚ) by norm_num [demoInput],
          eval_sort_demo]
        exact eval_loop_demo)
  rw [h.1, eval_sort_demo]
  norm_num [windA1, gasA1, gasB1]

/-- C3 counterexample: on the unknown kind "solarfired" the
effective-capacity derivation does not fail with the invalid-kind error:
`calculate_pmax` falls through all branches and raises an unbound-local
error instead, refuting the claim that both derivations fail the same
way. -/
theorem invalid_kind_counterexample :
    calculate_pmax demoFuels solarPlant = .error .unboundLocal ∧
    calculate_pmax demoFuels solarPlant ≠ .error .invalidPlantType := by
  refine ⟨eval_pmax_solar, ?_⟩
  rw [eval_pmax_solar]
  simp

/-- C3 amended: a unit of unknown kind anywhere in a request (whose
other units satisfy the validation contract) makes the whole request
abort with InvalidPlantTypeProvided before any allocation starts, and
the marginal-cost derivation is what raises it; the capacity derivation
alone fails on an unknown kind too, but with an unbound-local error, and
is never reached in the pipeline because the cost derivation runs
first. -/
theorem invalid_kind_aborts_request :
    (∀ (input : InputData),
      (∀ p ∈ input.powerplants,
        (p.type = "gasfired" ∨ p.type = "turbojet" → p.efficiency ≠ 0) ∧
        (p.type = "windturbine" → p.pmax ≠ none)) →
      (∃ p ∈ input.powerplants,
        p.type ≠ "gasfired" ∧ p.type ≠ "turbojet" ∧ p.type ≠ "windturbine") →
      (get_production_plan input).1 = .error .invalidPlantType) ∧
    (∀ (fuels : Fuels) (p : Powerplant),
      p.type ≠ "gasfired" → p.type ≠ "turbojet" → p.type ≠ "windturbine" →
      calculate_cost_per_MWH fuels p = .error .invalidPlantType ∧
      calculate_pmax fuels p = .error .unboundLocal) :=
  ⟨fun input hval hbad => get_production_plan_of_error input _
      (update_plants_invalid input.fuels input.powerplants hval hbad),
   fun fuels p h1 h2 h3 =>
    ⟨calculate_cost_unknown fuels p h1 h2 h3, calculate_pmax_unknown fuels p h1 h2 h3⟩⟩

theorem invalid_kind_aborts_request_witness :
    (get_production_plan solarInput).1 = .error .invalidPlantType := by
  apply invalid_kind_aborts_request.1 solarInput
  · intro p hp
    simp only [solarInput] at hp
    rcases List.mem_cons.mp hp with rfl | hp
    · exact ⟨fun _ => by norm_num [gasA], fun hw => absurd hw (by decide)⟩
    · rcases List.mem_cons.mp hp with rfl | hp
      · exact ⟨fun hf => by rcases hf with hf | hf <;> exact absurd hf (by decide),
          fun hw => absurd hw (by decide)⟩
      · exact absurd hp (List.not_mem_nil p)
  · exact ⟨solarPlant, by simp [solarInput], by decide, by decide, by decide⟩

/-- C7 counterexample: after one call the caller-visible unit list is
not the list that was passed in — each record now carries a populated
cost field, and the wind unit's pmax has been overwritten with the
scaled capacity (200 became 120). -/
theorem mutation_counterexample :
    (get_production_plan demoInput).2 ≠ demoInput.powerplants := by
  rw [eval_run_demo]
  simp only [demoInput]
  intro h
  have h0 := List.head_eq_of_cons_eq h
  rw [windA1, windA] at h0
  have h1 := congrArg Powerplant.pmax h0
  simp at h1

/-- C7 amended: the engine copies only the list container and mutates
the caller's Powerplant records in place: after a successful call the
caller-visible list is exactly the updated list, in which each record
keeps its name, type, efficiency and pmin but has cost_per_MWH set to
the derived marginal cost and pmax overwritten with the derived
effective capacity; there is no further effect. -/
theorem update_frame_spec (fuels : Fuels) : ∀ (plants ps : List Powerplant),
    update_plants fuels plants = .ok ps →
    update_plants_state fuels plants = ps ∧
    ps.length = plants.length ∧
    ∀ i (hq : i < ps.length) (hp : i < plants.length),
      (ps.get ⟨i, hq⟩).name = (plants.get ⟨i, hp⟩).name ∧
      (ps.get ⟨i, hq⟩).type = (plants.get ⟨i, hp⟩).type ∧
      (ps.get ⟨i, hq⟩).efficiency = (plants.get ⟨i, hp⟩).efficiency ∧
      (ps.get ⟨i, hq⟩).pmin = (plants.get ⟨i, hp⟩).pmin ∧
      ∃ c, calculate_cost_per_MWH fuels (plants.get ⟨i, hp⟩) = .ok c ∧
        (ps.get ⟨i, hq⟩).cost_per_MWH = some c ∧
        ∃ m, calculate_pmax fuels
            { plants.get ⟨i, hp⟩ with cost_per_MWH := some c } = .ok m ∧
          (ps.get ⟨i, hq⟩).pmax = m := by
  intro plants
  induction plants with
  | nil =>
    intro ps h
    rw [update_plants] at h
    simp only [Except.ok.injEq] at h
    subst h
    exact ⟨update_plants_state_eq fuels [] [] rfl, rfl,
      fun i hq hp => absurd hp (Nat.not_lt_zero i)⟩
  | cons p rest ih =>
    intro ps h
    obtain ⟨c, m, tail, hc, hm, htail, hout⟩ := update_plants_cons_ok fuels p rest ps h
    obtain ⟨hstate, hlen, hspec⟩ := ih tail htail
    subst hout
    refine ⟨update_plants_state_eq fuels (p :: rest) _ h, by simpa using hlen, ?_⟩
    intro i hq hp
    match i with
    | 0 => exact ⟨rfl, rfl, rfl, rfl, c, hc, rfl, m, hm, rfl⟩
    | i + 1 => exact hspec i (by simpa using hq) (by simpa using hp)

theorem update_frame_spec_witness :
    update_plants_state demoFuels [windA, gasA, gasB] = [windA1, gasA1, gasB1] :=
  (update_frame_spec demoFuels [windA, gasA, gasB] [windA1, gasA1, gasB1] eval_update_demo).1

/-- C8 counterexample: the engine returns a plan on the first call, but
invoking it a second time on the same calculator — whose stored units
the first call mutated — raises ManualInterventionNeeded instead: the
wind unit's capacity was scaled twice (200 → 120 → 72), so the identical
invocation no longer produces the identical output. -/
theorem second_call_divergence :
    (get_production_plan demoInput).1 = .ok demoPlan ∧
    demoInputSecond.powerplants = (get_production_plan demoInput).2 ∧
    (get_production_plan demoInputSecond).1 = .error .manualIntervention ∧
    (get_production_plan demoInputSecond).1 ≠ (get_production_plan demoInput).1 := by
  refine ⟨by rw [eval_run_demo], by rw [eval_run_demo]; rfl, eval_run_second, ?_⟩
  rw [eval_run_second, eval_run_demo]
  simp

/-- C8 amended: the engine is a pure function of the calculator's state
(load, fuels, stored units), so two invocations on identical state —
e.g. fresh calculators built from the same request, as the HTTP handler
does — yield identical results; a second invocation on the *same*
calculator is not covered, because the first call mutates the stored
units (see the counterexample). -/
theorem fresh_call_determinism (i j : InputData) (h : i = j) :
    get_production_plan i = get_production_plan j := by
  rw [h]

theorem fresh_call_determinism_witness :
    get_production_plan demoInput = get_production_plan demoInput :=
  fresh_call_determinism demoInput demoInput rfl

/-- C10 counterexample: a gas unit with efficiency 0 — admitted by the
input model — makes the engine fail with a ZeroDivisionError, which is
neither of the two declared exceptions, refuting the claimed
exhaustiveness. -/
theorem totality_counterexample :
    (get_production_plan zeroEffInput).1 = .error .zeroDivision ∧
    Err.zeroDivision ≠ Err.invalidPlantType ∧
    Err.zeroDivision ≠ Err.manualIntervention :=
  ⟨eval_run_zeroEff, by decide, by decide⟩

/-- C10 amended: when every unit's pmax is present and every
fuel-burning unit's efficiency is nonzero, the engine terminates with a
plan or one of the two declared exceptions; outside that contract the
Python-level ZeroDivisionError (efficiency 0) and TypeError (absent
pmax) failures are reachable, as the counterexample shows. -/
theorem totality_under_validation (input : InputData)
    (heff : ∀ p ∈ input.powerplants,
      p.type = "gasfired" ∨ p.type = "turbojet" → p.efficiency ≠ 0)
    (hpm : ∀ p ∈ input.powerplants, p.pmax ≠ none) :
    (∃ plan, (get_production_plan input).1 = .ok plan) ∨
    (get_production_plan input).1 = .error .invalidPlantType ∨
    (get_production_plan input).1 = .error .manualIntervention := by
  rcases update_plants_total input.fuels input.powerplants heff hpm with ⟨ps, hok, hnn⟩ | herr
  · have hgp := get_production_plan_of_ok input ps hok
    have hnn' : ∀ q ∈ ps.mergeSort costLE, q.pmax ≠ none :=
      fun q hq => hnn q (List.mem_mergeSort.mp hq)
    rcases production_loop_total (ps.mergeSort costLE) (input.load : ℚ) hnn' with ⟨plan, hp⟩ | hm
    · left
      refine ⟨plan, ?_⟩
      rw [hgp]
      exact hp
    · right; right
      rw [hgp]
      exact hm
  · right; left
    exact get_production_plan_of_error input _ herr

theorem totality_under_validation_witness :
    (∃ plan, (get_production_plan demoInput).1 = .ok plan) ∨
    (get_production_plan demoInput).1 = .error .invalidPlantType ∨
    (get_production_plan demoInput).1 = .error .manualIntervention := by
  apply totality_under_validation demoInput
  · intro p hp
    simp only [demoInput] at hp
    rcases List.mem_cons.mp hp with rfl | hp
    · intro hf
      rcases hf with hf | hf <;> exact absurd hf (by decide)
    · rcases List.mem_cons.mp hp with rfl | hp
      · intro _
        norm_num [gasA]
      · rcases List.mem_cons.mp hp with rfl | hp
        · intro _
          norm_num [gasB]
        · exact absurd hp (List.not_mem_nil p)
  · intro p hp
    simp only [demoInput] at hp
    rcases List.mem_cons.mp hp with rfl | hp
    · simp [windA]
    · rcases List.mem_cons.mp hp with rfl | hp
      · simp [gasA]
      · rcases List.mem_cons.mp hp with rfl | hp
        · simp [gasB]
        · exact absurd hp (List.not_mem_nil p)
